import Mathlib

/-!
# Verification of the `esp_update` flash orchestrator

Shallow embedding of `src/flash.ts` together with the data shapes declared in
`src/const.ts`.  The orchestrator `flash` sequences
connect → initialize → manifest fetch → build selection → part downloads →
(optional erase) → chunked write → finish, emitting a `FlashState` event at
every phase boundary and terminating on the first failure.

External collaborators (serial device, network) are modelled by an `Env`
record giving the outcome of each collaborator call; the orchestrator itself
is a pure function from `Env` to the trace of actions it performs
(state-event emissions and disconnect attempts).
-/

namespace EspUpdate

/-- Chip families a `Build` may declare (`src/const.ts`, `Build.chipFamily`). -/
inductive BuildChip
  | esp32
  | esp8266
deriving DecidableEq, Repr

/-- Chip families the detection step may report
(`src/flash.ts` line 13: `"ESP32" | "ESP8266" | "ESP32-S2" | "Unknown Chip"`). -/
inductive DetectedChip
  | esp32
  | esp8266
  | esp32s2
  | unknownChip
deriving DecidableEq, Repr

/-- The string comparison `b.chipFamily === chipFamily` from `src/flash.ts`
line 88, restricted to the declared value sets of the two types. -/
def chipMatch : BuildChip → DetectedChip → Bool
  | .esp32, .esp32 => true
  | .esp8266, .esp8266 => true
  | _, _ => false

/-- A firmware part: relative URL and flash offset (`src/const.ts`). -/
structure Part where
  path : String
  offset : Nat
deriving DecidableEq, Repr

/-- A build for one chip family (`src/const.ts`). -/
structure Build where
  chipFamily : BuildChip
  improv : Bool
  parts : List Part
deriving DecidableEq, Repr

/-- A release manifest (`src/const.ts`). -/
structure Manifest where
  name : String
  builds : List Build
deriving DecidableEq, Repr

/-- The closed error taxonomy (`src/const.ts`, `FlashError`). -/
inductive FlashError
  | failed_initializing
  | failed_manifest_fetch
  | not_supported
  | failed_firmware_download
  | write_failed
deriving DecidableEq, Repr

/-- The `details` payload carried by an Error state: the underlying cause.
For `NOT_SUPPORTED` the source passes the detected chip family; for a part
download rejected with a non-success HTTP status the thrown `Error`'s message
carries the part path and the status (`src/flash.ts` lines 115-119). -/
inductive ErrDetails
  | initErr
  | manifestErr
  | chip (c : DetectedChip)
  | download (path : String) (status : Nat)
  | network (msg : String)
  | writeErr
deriving DecidableEq, Repr

/-- The tag-plus-details component of a `FlashState`
(`src/const.ts`, the seven-state tagged union). -/
inductive StateKind
  | initializing (done : Bool)
  | manifestInfo (done : Bool)
  | preparing (done : Bool)
  | erasing (done : Bool)
  | writing (bytesTotal bytesWritten percentage : Nat)
  | finished
  | error (tag : FlashError) (details : ErrDetails)
deriving DecidableEq, Repr

/-- The run context captured by the closure variables `manifest`, `build`,
`chipFamily` of `flash` (`src/flash.ts` lines 11-13); all three start
undefined. -/
structure Ctx where
  manifest : Option Manifest
  build : Option Build
  chipFamily : Option DetectedChip
deriving DecidableEq, Repr

/-- One emitted `state-changed` event: the state update spread together with
the current context snapshot (`fireStateEvent`, `src/flash.ts` lines 15-22). -/
structure FlashEvent where
  kind : StateKind
  manifest : Option Manifest
  build : Option Build
  chipFamily : Option DetectedChip
deriving DecidableEq, Repr

/-- `fireStateEvent`: attach the current context to the state update. -/
def fireStateEvent (ctx : Ctx) (k : StateKind) : FlashEvent :=
  { kind := k
    manifest := ctx.manifest
    build := ctx.build
    chipFamily := ctx.chipFamily }

/-- Observable actions of a run: emitting a state event, or attempting an
`esploader.disconnect()`. -/
inductive Action
  | emit (e : FlashEvent)
  | disconnect
deriving DecidableEq, Repr

/-- Outcome of fetching one firmware part (`src/flash.ts` lines 112-121):
the fetch resolves with a success status and a buffer of `size` bytes,
resolves with a non-success HTTP status, or rejects outright. -/
inductive PartFetchOutcome
  | ok (size : Nat)
  | httpError (status : Nat)
  | netError (msg : String)
deriving DecidableEq, Repr

/-- Outcome of one `espStub.flashData` call (`src/flash.ts` lines 182-204):
the device invokes the progress callback with each listed cumulative
`bytesWritten` value, then either resolves or rejects. -/
inductive WriteOutcome
  | ok (callbacks : List Nat)
  | fail (callbacks : List Nat)
deriving DecidableEq, Repr

/-- Environment: outcome of every external collaborator call made by `flash`.
`partFetch` and `writeOutcome` are indexed by the part's position in
`build.parts`.  `connectedAfterInitFail` is the value of the
`esploader.connected` flag inspected when `initialize()` rejects. -/
structure Env where
  connectOk : Bool
  initOk : Bool
  connectedAfterInitFail : Bool
  chip : DetectedChip
  manifestResult : Option Manifest
  partFetch : Nat → PartFetchOutcome
  writeOutcome : Nat → WriteOutcome

/-- `manifest.builds.find((b) => b.chipFamily === chipFamily)`
(`src/flash.ts` line 88). -/
def selectBuild (m : Manifest) (chip : DetectedChip) : Option Build :=
  m.builds.find? (fun b => chipMatch b.chipFamily chip)

/-- Context at run start: `manifest`, `build`, `chipFamily` all undefined. -/
def ctxStart : Ctx := ⟨none, none, none⟩

/-- Context once `chipFamily = getChipFamilyName(esploader)` has run
(`src/flash.ts` line 63). -/
def ctxChip (c : DetectedChip) : Ctx := ⟨none, none, some c⟩

/-- Context once the manifest has been fetched and
`build = manifest.builds.find(...)` has run (`src/flash.ts` lines 77-88);
both assignments happen before the next event is fired, so every later event
carries this context. -/
def ctxFull (m : Manifest) (c : DetectedChip) : Ctx :=
  ⟨some m, selectBuild m c, some c⟩

/-- The await loop over `filePromises` (`src/flash.ts` lines 129-143): part
fetches are initiated together but awaited in part order, so the first
failure in part order wins.  On success returns the byte sizes of the
downloaded buffers; on failure returns the cause thrown for the first
failing part. -/
def downloadParts (env : Env) : List Part → Nat → Except ErrDetails (List Nat)
  | [], _ => .ok []
  | p :: rest, idx =>
    match env.partFetch idx with
    | .ok size =>
      match downloadParts env rest (idx + 1) with
      | .ok sizes => .ok (size :: sizes)
      | .error d => .error d
    | .httpError status => .error (.download p.path status)
    | .netError msg => .error (.network msg)

/-- The per-chunk progress callback passed to `flashData`
(`src/flash.ts` lines 184-201), run over the sequence of `bytesWritten`
values the device reports: compute
`newPct = Math.floor(((totalWritten + bytesWritten) / totalSize) * 100)`,
skip when it equals `lastPct`, otherwise update `lastPct` and emit a Writing
state.  Returns the emitted actions and the final `lastPct`. -/
def runCallbacks (ctx : Ctx) (totalSize totalWritten : Nat) :
    List Nat → Nat → List Action × Nat
  | [], lastPct => ([], lastPct)
  | bw :: rest, lastPct =>
    let newPct := (totalWritten + bw) * 100 / totalSize
    if newPct = lastPct then
      runCallbacks ctx totalSize totalWritten rest lastPct
    else
      let r := runCallbacks ctx totalSize totalWritten rest newPct
      (.emit (fireStateEvent ctx
          (.writing totalSize (totalWritten + bw) newPct)) :: r.1, r.2)

/-- The write loop over `build.parts` (`src/flash.ts` lines 177-215):
for each part, `flashData` drives the progress callback and then either
resolves (add the file's byte length to `totalWritten` and continue) or
rejects (emit Error(WriteFailed), attempt disconnect, abort).  Returns the
actions together with `true` when all parts were written. -/
def writeParts (env : Env) (ctx : Ctx) (totalSize : Nat) :
    List Nat → Nat → Nat → Nat → List Action × Bool
  | [], _, _, _ => ([], true)
  | size :: rest, idx, totalWritten, lastPct =>
    match env.writeOutcome idx with
    | .ok cbs =>
      let r := runCallbacks ctx totalSize totalWritten cbs lastPct
      let r2 := writeParts env ctx totalSize rest (idx + 1) (totalWritten + size) r.2
      (r.1 ++ r2.1, r2.2)
    | .fail cbs =>
      let r := runCallbacks ctx totalSize totalWritten cbs lastPct
      (r.1 ++ [.emit (fireStateEvent ctx (.error .write_failed .writeErr)),
        .disconnect], false)

/-- The orchestrator `flash` (`src/flash.ts` lines 5-235) as a pure trace
function.  Collaborator calls the source does not guard with `try`/`catch`
(`runStub`, `eraseFlash`, `sleep`, `hardReset`, terminal `disconnect`) are
modelled as succeeding. -/
def flash (env : Env) (eraseFirst : Bool) : List Action :=
  if env.connectOk = false then
    []
  else
    let a1 : Action := .emit (fireStateEvent ctxStart (.initializing false))
    if env.initOk = false then
      if env.connectedAfterInitFail then
        [a1, .emit (fireStateEvent ctxStart (.error .failed_initializing .initErr)),
          .disconnect]
      else
        [a1]
    else
      let ctx1 : Ctx := ctxChip env.chip
      let a2 : Action := .emit (fireStateEvent ctx1 (.initializing true))
      let a3 : Action := .emit (fireStateEvent ctx1 (.manifestInfo false))
      match env.manifestResult with
      | none =>
        [a1, a2, a3,
          .emit (fireStateEvent ctx1 (.error .failed_manifest_fetch .manifestErr)),
          .disconnect]
      | some m =>
        let ctx3 : Ctx := ctxFull m env.chip
        let a4 : Action := .emit (fireStateEvent ctx3 (.manifestInfo true))
        match selectBuild m env.chip with
        | none =>
          [a1, a2, a3, a4,
            .emit (fireStateEvent ctx3 (.error .not_supported (.chip env.chip))),
            .disconnect]
        | some b =>
          let a5 : Action := .emit (fireStateEvent ctx3 (.preparing false))
          match downloadParts env b.parts 0 with
          | .error d =>
            [a1, a2, a3, a4, a5,
              .emit (fireStateEvent ctx3 (.error .failed_firmware_download d)),
              .disconnect]
          | .ok sizes =>
            let totalSize := sizes.sum
            let a6 : Action := .emit (fireStateEvent ctx3 (.preparing true))
            let eraseActs : List Action :=
              if eraseFirst then
                [.emit (fireStateEvent ctx3 (.erasing false)),
                  .emit (fireStateEvent ctx3 (.erasing true))]
              else []
            let a7 : Action := .emit (fireStateEvent ctx3 (.writing totalSize 0 0))
            let w := writeParts env ctx3 totalSize sizes 0 0 0
            if w.2 then
              [a1, a2, a3, a4, a5, a6] ++ eraseActs ++ [a7] ++ w.1 ++
                [.emit (fireStateEvent ctx3 (.writing totalSize sizes.sum 100)),
                  .disconnect,
                  .emit (fireStateEvent ctx3 .finished)]
            else
              [a1, a2, a3, a4, a5, a6] ++ eraseActs ++ [a7] ++ w.1

/-- The state events of an action trace, in order. -/
def eventsOf (l : List Action) : List FlashEvent :=
  l.filterMap fun a =>
    match a with
    | .emit e => some e
    | .disconnect => none

/-- The emitted state-event stream of a run. -/
def flashEvents (env : Env) (eraseFirst : Bool) : List FlashEvent :=
  eventsOf (flash env eraseFirst)

/-- Whether a state is an Error state. -/
def StateKind.isError : StateKind → Bool
  | .error _ _ => true
  | _ => false

/-- Whether a state is terminal for the run (Error or Finished). -/
def StateKind.isTerminal : StateKind → Bool
  | .error _ _ => true
  | .finished => true
  | _ => false

/-- Whether a state is an Erasing state. -/
def StateKind.isErasing : StateKind → Bool
  | .erasing _ => true
  | _ => false

/-- Whether a state is a Writing state. -/
def StateKind.isWritingState : StateKind → Bool
  | .writing _ _ _ => true
  | _ => false

/-- Whether a state is a Writing state carrying percentage 100. -/
def StateKind.isPct100 : StateKind → Bool
  | .writing _ _ p => p = 100
  | _ => false

/-- The error-taxonomy tags of the Error states in an event stream,
in emission order. -/
def errorTags (l : List FlashEvent) : List FlashError :=
  l.filterMap fun e =>
    match e.kind with
    | .error t _ => some t
    | _ => none

/-- Whether a part fetch resolved with a success status. -/
def PartFetchOutcome.isOk : PartFetchOutcome → Bool
  | .ok _ => true
  | _ => false

/-- Whether a `flashData` call resolved. -/
def WriteOutcome.isOk : WriteOutcome → Bool
  | .ok _ => true
  | _ => false

/-- Byte size delivered by a successful part fetch (0 for a failed one). -/
def fetchSize : PartFetchOutcome → Nat
  | .ok s => s
  | _ => 0

/-- Byte sizes of the first `n` part fetches. -/
def fetchSizes (env : Env) (n : Nat) : List Nat :=
  (List.range n).map fun j => fetchSize (env.partFetch j)

/-- The taxonomy tag of the first phase operation that fails in a run, in the
order the orchestrator awaits them; `none` when the run is either never
started (connect refused/cancelled) or fully successful. -/
def firstFailureTag (env : Env) : Option FlashError :=
  if env.connectOk = false then none
  else if env.initOk = false then some .failed_initializing
  else
    match env.manifestResult with
    | none => some .failed_manifest_fetch
    | some m =>
      match selectBuild m env.chip with
      | none => some .not_supported
      | some b =>
        if (List.range b.parts.length).all (fun i => (env.partFetch i).isOk) then
          if (List.range b.parts.length).all (fun i => (env.writeOutcome i).isOk) then
            none
          else some .write_failed
        else some .failed_firmware_download

/-- The context snapshot an emitted event carries. -/
def eventCtx (e : FlashEvent) : Ctx :=
  ⟨e.manifest, e.build, e.chipFamily⟩

/-- Context extension: every field set in `c1` is set to the same value in
`c2`. -/
def ctxLE (c1 c2 : Ctx) : Prop :=
  (∀ m, c1.manifest = some m → c2.manifest = some m) ∧
  (∀ b, c1.build = some b → c2.build = some b) ∧
  (∀ c, c1.chipFamily = some c → c2.chipFamily = some c)

/-- Context extension between two emitted events. -/
def eventCtxLE (e1 e2 : FlashEvent) : Prop :=
  ctxLE (eventCtx e1) (eventCtx e2)

/-- The percentage carried by a Writing-state emission, if the action is
one. -/
def actionPct : Action → Option Nat
  | .emit e =>
    match e.kind with
    | .writing _ _ p => some p
    | _ => none
  | .disconnect => none

/-- Percentages of the Writing-state emissions of an action trace. -/
def emittedPcts (l : List Action) : List Nat :=
  l.filterMap actionPct

/-- An action that emits a Writing state with total `ts` under context
`ctx`. -/
def isWritingEmit (ctx : Ctx) (ts : Nat) (a : Action) : Prop :=
  ∃ bw p, a = .emit (fireStateEvent ctx (.writing ts bw p))

/-! ### Concrete runs used as witnesses -/

/-- The single build of the witness manifest. -/
def bW : Build := ⟨.esp32, false, [⟨"a.bin", 0⟩]⟩

/-- A manifest with one ESP32 build holding one part. -/
def mW : Manifest := ⟨"Test", [bW]⟩

/-- Environment of a fully successful run: one 10-byte part, one progress
callback reporting 5 bytes written. -/
def envSuccess : Env :=
  { connectOk := true
    initOk := true
    connectedAfterInitFail := true
    chip := .esp32
    manifestResult := some mW
    partFetch := fun _ => .ok 10
    writeOutcome := fun _ => .ok [5] }

/-- A successful run whose last progress callback already reaches 100%. -/
def envEarly100 : Env :=
  { envSuccess with writeOutcome := fun _ => .ok [10] }

/-- A run whose device handshake fails with the loader no longer
connected. -/
def envInitFailDisc : Env :=
  { connectOk := true
    initOk := false
    connectedAfterInitFail := false
    chip := .esp32
    manifestResult := none
    partFetch := fun _ => .ok 0
    writeOutcome := fun _ => .ok [] }

/-- A run whose manifest fetch rejects. -/
def envManifestFail : Env :=
  { envSuccess with manifestResult := none }

/-- A run where the user cancels the serial-port picker. -/
def envCancelled : Env :=
  { envSuccess with connectOk := false }

/-- A run where the single part download returns HTTP 404. -/
def envHttp404 : Env :=
  { envSuccess with partFetch := fun _ => .httpError 404 }

/-- A run where the detected chip family is ESP32-S2. -/
def envS2 : Env :=
  { envSuccess with chip := .esp32s2 }

/-- A run where the detected chip is ESP8266 but the manifest only holds an
ESP32 build. -/
def envWrongChip : Env :=
  { envSuccess with chip := .esp8266 }

/-! ### Basic lemmas about the trace combinators -/

theorem eventsOf_append (l1 l2 : List Action) :
    eventsOf (l1 ++ l2) = eventsOf l1 ++ eventsOf l2 :=
  List.filterMap_append l1 l2 _

theorem mem_eventsOf {e : FlashEvent} {l : List Action} :
    e ∈ eventsOf l ↔ Action.emit e ∈ l := by
  unfold eventsOf
  rw [List.mem_filterMap]
  constructor
  · rintro ⟨a, ha, hfa⟩
    cases a with
    | emit e2 =>
      obtain rfl : e2 = e := by simpa using hfa
      exact ha
    | disconnect => simp at hfa
  · intro h
    exact ⟨.emit e, h, rfl⟩

theorem errorTags_append (l1 l2 : List FlashEvent) :
    errorTags (l1 ++ l2) = errorTags l1 ++ errorTags l2 :=
  List.filterMap_append l1 l2 _

theorem downloadParts_ok_sizes (env : Env) :
    ∀ (parts : List Part) (idx : Nat),
      (∀ j, j < parts.length → (env.partFetch (idx + j)).isOk = true) →
      downloadParts env parts idx =
        .ok ((List.range parts.length).map fun j => fetchSize (env.partFetch (idx + j)))
  | [], _, _ => by simp [downloadParts]
  | p :: rest, idx, h => by
    have h0 : (env.partFetch idx).isOk = true := by simpa using h 0 (Nat.succ_pos _)
    cases hp : env.partFetch idx with
    | ok size =>
      have ih := downloadParts_ok_sizes env rest (idx + 1) (fun j hj => by
        have := h (j + 1) (Nat.succ_lt_succ hj)
        have harith : idx + (j + 1) = idx + 1 + j := by omega
        rwa [harith] at this)
      have harith : ∀ j : Nat, idx + 1 + j = idx + (j + 1) := fun j => by omega
      simp only [downloadParts, hp, ih, List.length_cons, List.range_succ_eq_map,
        List.map_cons, List.map_map, Function.comp]
      simp [harith, hp, fetchSize]
    | httpError s => rw [hp] at h0; simp [PartFetchOutcome.isOk] at h0
    | netError msg => rw [hp] at h0; simp [PartFetchOutcome.isOk] at h0

theorem downloadParts_error_exists (env : Env) :
    ∀ (parts : List Part) (idx j : Nat), j < parts.length →
      (env.partFetch (idx + j)).isOk = false →
      ∃ d, downloadParts env parts idx = .error d
  | [], _, j, hj, _ => absurd hj (by simp)
  | p :: rest, idx, j, hj, hbad => by
    cases hp : env.partFetch idx with
    | ok size =>
      cases j with
      | zero =>
        rw [Nat.add_zero, hp] at hbad
        simp [PartFetchOutcome.isOk] at hbad
      | succ j2 =>
        have hj2 : j2 < rest.length := by simpa using Nat.lt_of_succ_lt_succ hj
        have hbad2 : (env.partFetch (idx + 1 + j2)).isOk = false := by
          have harith : idx + 1 + j2 = idx + (j2 + 1) := by omega
          rwa [harith]
        obtain ⟨d, hd⟩ := downloadParts_error_exists env rest (idx + 1) j2 hj2 hbad2
        exact ⟨d, by simp [downloadParts, hp, hd]⟩
    | httpError s => exact ⟨.download p.path s, by simp [downloadParts, hp]⟩
    | netError msg => exact ⟨.network msg, by simp [downloadParts, hp]⟩

theorem downloadParts_first_http (env : Env) :
    ∀ (parts : List Part) (idx i : Nat) (hi : i < parts.length) (s : Nat),
      env.partFetch (idx + i) = .httpError s →
      (∀ j, j < i → (env.partFetch (idx + j)).isOk = true) →
      downloadParts env parts idx = .error (.download (parts.get ⟨i, hi⟩).path s)
  | [], _, i, hi, _, _, _ => absurd hi (by simp)
  | p :: rest, idx, 0, _, s, hfail, _ => by
    rw [Nat.add_zero] at hfail
    simp [downloadParts, hfail]
  | p :: rest, idx, i + 1, hi, s, hfail, hfirst => by
    have h0 : (env.partFetch idx).isOk = true := by
      simpa using hfirst 0 (Nat.succ_pos _)
    cases hp : env.partFetch idx with
    | ok size =>
      have hi2 : i < rest.length := by simpa using Nat.lt_of_succ_lt_succ hi
      have hfail2 : env.partFetch (idx + 1 + i) = .httpError s := by
        have harith : idx + 1 + i = idx + (i + 1) := by omega
        rwa [harith]
      have hfirst2 : ∀ j, j < i → (env.partFetch (idx + 1 + j)).isOk = true := by
        intro j hj
        have harith : idx + 1 + j = idx + (j + 1) := by omega
        rw [harith]
        exact hfirst (j + 1) (Nat.succ_lt_succ hj)
      have ih := downloadParts_first_http env rest (idx + 1) i hi2 s hfail2 hfirst2
      simp [downloadParts, hp, ih]
    | httpError s2 => rw [hp] at h0; simp [PartFetchOutcome.isOk] at h0
    | netError msg => rw [hp] at h0; simp [PartFetchOutcome.isOk] at h0

theorem runCallbacks_mem (ctx : Ctx) (ts tw : Nat) :
    ∀ (cbs : List Nat) (lp : Nat) (a : Action),
      a ∈ (runCallbacks ctx ts tw cbs lp).1 →
      ∃ bw, bw ∈ cbs ∧
        a = .emit (fireStateEvent ctx (.writing ts (tw + bw) ((tw + bw) * 100 / ts)))
  | [], lp, a, ha => absurd ha (by simp [runCallbacks])
  | bw :: rest, lp, a, ha => by
    rw [runCallbacks] at ha
    by_cases h : (tw + bw) * 100 / ts = lp
    · rw [if_pos h] at ha
      obtain ⟨bw2, hmem, heq⟩ := runCallbacks_mem ctx ts tw rest lp a ha
      exact ⟨bw2, List.mem_cons_of_mem _ hmem, heq⟩
    · rw [if_neg h] at ha
      rcases List.mem_cons.mp ha with heq | hmem
      · exact ⟨bw, List.mem_cons_self _ _, heq⟩
      · obtain ⟨bw2, hmem2, heq⟩ :=
          runCallbacks_mem ctx ts tw rest ((tw + bw) * 100 / ts) a hmem
        exact ⟨bw2, List.mem_cons_of_mem _ hmem2, heq⟩

theorem writeParts_ok_mem (env : Env) (ctx : Ctx) (ts : Nat) :
    ∀ (sizes : List Nat) (idx tw lp : Nat) (a : Action),
      (writeParts env ctx ts sizes idx tw lp).2 = true →
      a ∈ (writeParts env ctx ts sizes idx tw lp).1 → isWritingEmit ctx ts a
  | [], _, _, _, a, _, ha => absurd ha (by simp [writeParts])
  | size :: rest, idx, tw, lp, a, hok, ha => by
    rw [writeParts] at hok ha
    cases hw : env.writeOutcome idx with
    | ok cbs =>
      rw [hw] at hok ha
      simp only [List.mem_append] at ha
      rcases ha with ha | ha
      · obtain ⟨bw, _, heq⟩ := runCallbacks_mem ctx ts tw cbs lp a ha
        exact ⟨tw + bw, (tw + bw) * 100 / ts, heq⟩
      · exact writeParts_ok_mem env ctx ts rest (idx + 1) (tw + size) _ a hok ha
    | fail cbs =>
      rw [hw] at hok
      simp at hok

theorem writeParts_fail_shape (env : Env) (ctx : Ctx) (ts : Nat) :
    ∀ (sizes : List Nat) (idx tw lp : Nat),
      (writeParts env ctx ts sizes idx tw lp).2 = false →
      ∃ front, (writeParts env ctx ts sizes idx tw lp).1 =
          front ++ [.emit (fireStateEvent ctx (.error .write_failed .writeErr)),
            .disconnect] ∧
        ∀ a ∈ front, isWritingEmit ctx ts a
  | [], _, _, _, hfl => by simp [writeParts] at hfl
  | size :: rest, idx, tw, lp, hfl => by
    cases hw : env.writeOutcome idx with
    | ok cbs =>
      rw [writeParts, hw] at hfl
      obtain ⟨front2, heq, hfront2⟩ :=
        writeParts_fail_shape env ctx ts rest (idx + 1) (tw + size) _ hfl
      refine ⟨(runCallbacks ctx ts tw cbs lp).1 ++ front2, ?_, ?_⟩
      · rw [writeParts, hw]
        simp [heq]
      · intro a ha
        rcases List.mem_append.mp ha with ha | ha
        · obtain ⟨bw, _, heq2⟩ := runCallbacks_mem ctx ts tw cbs lp a ha
          exact ⟨tw + bw, (tw + bw) * 100 / ts, heq2⟩
        · exact hfront2 a ha
    | fail cbs =>
      refine ⟨(runCallbacks ctx ts tw cbs lp).1, ?_, ?_⟩
      · rw [writeParts, hw]
      · intro a ha
        obtain ⟨bw, _, heq⟩ := runCallbacks_mem ctx ts tw cbs lp a ha
        exact ⟨tw + bw, (tw + bw) * 100 / ts, heq⟩

theorem writeParts_true (env : Env) (ctx : Ctx) (ts : Nat) :
    ∀ (sizes : List Nat) (idx tw lp : Nat),
      (∀ j, j < sizes.length → (env.writeOutcome (idx + j)).isOk = true) →
      (writeParts env ctx ts sizes idx tw lp).2 = true
  | [], _, _, _, _ => by simp [writeParts]
  | size :: rest, idx, tw, lp, h => by
    have h0 : (env.writeOutcome idx).isOk = true := by simpa using h 0 (Nat.succ_pos _)
    cases hw : env.writeOutcome idx with
    | ok cbs =>
      have ih := writeParts_true env ctx ts rest (idx + 1) (tw + size)
        (runCallbacks ctx ts tw cbs lp).2 (fun j hj => by
          have := h (j + 1) (Nat.succ_lt_succ (by simpa using hj))
          have harith : idx + (j + 1) = idx + 1 + j := by omega
          rwa [harith] at this)
      simp [writeParts, hw, ih]
    | fail cbs => rw [hw] at h0; simp [WriteOutcome.isOk] at h0

theorem writeParts_false (env : Env) (ctx : Ctx) (ts : Nat) :
    ∀ (sizes : List Nat) (idx tw lp j : Nat), j < sizes.length →
      (env.writeOutcome (idx + j)).isOk = false →
      (writeParts env ctx ts sizes idx tw lp).2 = false
  | [], _, _, _, j, hj, _ => absurd hj (by simp)
  | size :: rest, idx, tw, lp, j, hj, hbad => by
    cases hw : env.writeOutcome idx with
    | ok cbs =>
      cases j with
      | zero =>
        rw [Nat.add_zero, hw] at hbad
        simp [WriteOutcome.isOk] at hbad
      | succ j2 =>
        have hj2 : j2 < rest.length := by simpa using Nat.lt_of_succ_lt_succ hj
        have hbad2 : (env.writeOutcome (idx + 1 + j2)).isOk = false := by
          have harith : idx + 1 + j2 = idx + (j2 + 1) := by omega
          rwa [harith]
        have ih := writeParts_false env ctx ts rest (idx + 1) (tw + size)
          (runCallbacks ctx ts tw cbs lp).2 j2 hj2 hbad2
        simp [writeParts, hw, ih]
    | fail cbs => simp [writeParts, hw]

/-! ### Percentage stream lemmas -/

theorem destutter_ne_head : ∀ (l : List Nat) (a : Nat),
    ∃ t, List.destutter' Ne a l = a :: t
  | [], a => ⟨[], by simp [List.destutter'_nil]⟩
  | b :: l, a => by
    rw [List.destutter'_cons]
    by_cases h : a ≠ b
    · rw [if_pos h]
      exact ⟨_, rfl⟩
    · rw [if_neg h]
      exact destutter_ne_head l a

theorem emittedPcts_runCallbacks (ctx : Ctx) (ts tw : Nat) :
    ∀ (cbs : List Nat) (lp : Nat),
      emittedPcts (runCallbacks ctx ts tw cbs lp).1 =
        (List.destutter' Ne lp (cbs.map fun bw => (tw + bw) * 100 / ts)).tail
  | [], lp => by simp [runCallbacks, emittedPcts, List.destutter'_nil]
  | bw :: rest, lp => by
    rw [runCallbacks, List.map_cons, List.destutter'_cons]
    by_cases h : (tw + bw) * 100 / ts = lp
    · rw [if_pos h, if_neg (not_not_intro h.symm), emittedPcts_runCallbacks ctx ts tw rest lp]
    · rw [if_neg h, if_pos (fun hc => h hc.symm), List.tail_cons]
      obtain ⟨t, ht⟩ :=
        destutter_ne_head (rest.map fun bw2 => (tw + bw2) * 100 / ts)
          ((tw + bw) * 100 / ts)
      have ih := emittedPcts_runCallbacks ctx ts tw rest ((tw + bw) * 100 / ts)
      rw [ht, List.tail_cons] at ih
      simp only [emittedPcts, List.filterMap_cons, actionPct, fireStateEvent]
      rw [ht]
      simpa [emittedPcts] using ih

theorem chain_lt_of_le_ne : ∀ (l : List Nat),
    l.Chain' (· ≤ ·) → l.Chain' (· ≠ ·) → l.Chain' (· < ·)
  | [], _, _ => List.chain'_nil
  | [_], _, _ => List.chain'_singleton _
  | a :: b :: l, hle, hne => by
    rw [List.chain'_cons] at hle hne ⊢
    exact ⟨lt_of_le_of_ne hle.1 hne.1, chain_lt_of_le_ne (b :: l) hle.2 hne.2⟩

theorem runCallbacks_no100 (ctx : Ctx) (ts tw : Nat) (cbs : List Nat) (lp : Nat)
    (h : ∀ bw ∈ cbs, tw + bw < ts) :
    ∀ e ∈ eventsOf (runCallbacks ctx ts tw cbs lp).1, e.kind.isPct100 = false := by
  intro e he
  obtain ⟨bw, hbw, heq⟩ := runCallbacks_mem ctx ts tw cbs lp _ (mem_eventsOf.mp he)
  obtain rfl : e = fireStateEvent ctx (.writing ts (tw + bw) ((tw + bw) * 100 / ts)) :=
    Action.emit.inj heq
  have hlt : tw + bw < ts := h bw hbw
  have hts : 0 < ts := Nat.lt_of_le_of_lt (Nat.zero_le _) hlt
  have hpct : (tw + bw) * 100 / ts < 100 := by
    rw [Nat.div_lt_iff_lt_mul hts]
    omega
  simp only [fireStateEvent, StateKind.isPct100]
  exact decide_eq_false (Nat.ne_of_lt hpct)

theorem writeParts_no100 (env : Env) (ctx : Ctx) (ts : Nat) :
    ∀ (sizes : List Nat) (idx tw lp : Nat),
      (∀ j, j < sizes.length → (env.writeOutcome (idx + j)).isOk = true) →
      (∀ j cbs, j < sizes.length → env.writeOutcome (idx + j) = .ok cbs →
        ∀ bw ∈ cbs, tw + (sizes.take j).sum + bw < ts) →
      ∀ e ∈ eventsOf (writeParts env ctx ts sizes idx tw lp).1,
        e.kind.isPct100 = false
  | [], _, _, _, _, _ => by simp [writeParts, eventsOf]
  | size :: rest, idx, tw, lp, hok, hbound => by
    have h0 : (env.writeOutcome idx).isOk = true := by simpa using hok 0 (Nat.succ_pos _)
    cases hw : env.writeOutcome idx with
    | ok cbs =>
      intro e he
      rw [writeParts, hw] at he
      rw [eventsOf_append] at he
      rcases List.mem_append.mp he with he | he
      · refine runCallbacks_no100 ctx ts tw cbs lp ?_ e he
        intro bw hbw
        have := hbound 0 cbs (Nat.succ_pos _) (by rwa [Nat.add_zero]) bw hbw
        simpa using this
      · refine writeParts_no100 env ctx ts rest (idx + 1) (tw + size) _ ?_ ?_ e he
        · intro j hj
          have := hok (j + 1) (Nat.succ_lt_succ hj)
          have harith : idx + (j + 1) = idx + 1 + j := by omega
          rwa [harith] at this
        · intro j cbs2 hj hcbs2 bw hbw
          have harith : idx + (j + 1) = idx + 1 + j := by omega
          have := hbound (j + 1) cbs2 (Nat.succ_lt_succ hj) (by rwa [harith]) bw hbw
          have harith2 : ((size :: rest).take (j + 1)).sum =
              size + (rest.take j).sum := by
            simp [List.take_succ_cons]
          omega
    | fail cbs => rw [hw] at h0; simp [WriteOutcome.isOk] at h0

/-! ### Branch shapes of the orchestrator -/

theorem flash_init_fail_disc (env : Env) (ef : Bool)
    (hc : env.connectOk = true) (hi : env.initOk = false)
    (hd : env.connectedAfterInitFail = false) :
    flash env ef = [.emit (fireStateEvent ctxStart (.initializing false))] := by
  simp [flash, hc, hi, hd]

theorem flash_init_fail_conn (env : Env) (ef : Bool)
    (hc : env.connectOk = true) (hi : env.initOk = false)
    (hd : env.connectedAfterInitFail = true) :
    flash env ef =
      [.emit (fireStateEvent ctxStart (.initializing false)),
        .emit (fireStateEvent ctxStart (.error .failed_initializing .initErr)),
        .disconnect] := by
  simp [flash, hc, hi, hd]

theorem flash_manifest_fail (env : Env) (ef : Bool)
    (hc : env.connectOk = true) (hi : env.initOk = true)
    (hm : env.manifestResult = none) :
    flash env ef =
      [.emit (fireStateEvent ctxStart (.initializing false)),
        .emit (fireStateEvent (ctxChip env.chip) (.initializing true)),
        .emit (fireStateEvent (ctxChip env.chip) (.manifestInfo false)),
        .emit (fireStateEvent (ctxChip env.chip)
          (.error .failed_manifest_fetch .manifestErr)),
        .disconnect] := by
  simp [flash, hc, hi, hm]

theorem flash_no_build (env : Env) (ef : Bool) (m : Manifest)
    (hc : env.connectOk = true) (hi : env.initOk = true)
    (hm : env.manifestResult = some m)
    (hsb : selectBuild m env.chip = none) :
    flash env ef =
      [.emit (fireStateEvent ctxStart (.initializing false)),
        .emit (fireStateEvent (ctxChip env.chip) (.initializing true)),
        .emit (fireStateEvent (ctxChip env.chip) (.manifestInfo false)),
        .emit (fireStateEvent (ctxFull m env.chip) (.manifestInfo true)),
        .emit (fireStateEvent (ctxFull m env.chip)
          (.error .not_supported (.chip env.chip))),
        .disconnect] := by
  simp [flash, hc, hi, hm, hsb]

theorem flash_download_fail (env : Env) (ef : Bool) (m : Manifest) (b : Build)
    (d : ErrDetails)
    (hc : env.connectOk = true) (hi : env.initOk = true)
    (hm : env.manifestResult = some m)
    (hsb : selectBuild m env.chip = some b)
    (hdl : downloadParts env b.parts 0 = .error d) :
    flash env ef =
      [.emit (fireStateEvent ctxStart (.initializing false)),
        .emit (fireStateEvent (ctxChip env.chip) (.initializing true)),
        .emit (fireStateEvent (ctxChip env.chip) (.manifestInfo false)),
        .emit (fireStateEvent (ctxFull m env.chip) (.manifestInfo true)),
        .emit (fireStateEvent (ctxFull m env.chip) (.preparing false)),
        .emit (fireStateEvent (ctxFull m env.chip)
          (.error .failed_firmware_download d)),
        .disconnect] := by
  simp [flash, hc, hi, hm, hsb, hdl]

theorem flash_write_branch (env : Env) (ef : Bool) (m : Manifest) (b : Build)
    (sizes : List Nat)
    (hc : env.connectOk = true) (hi : env.initOk = true)
    (hm : env.manifestResult = some m)
    (hsb : selectBuild m env.chip = some b)
    (hdl : downloadParts env b.parts 0 = .ok sizes) :
    flash env ef =
      [.emit (fireStateEvent ctxStart (.initializing false)),
        .emit (fireStateEvent (ctxChip env.chip) (.initializing true)),
        .emit (fireStateEvent (ctxChip env.chip) (.manifestInfo false)),
        .emit (fireStateEvent (ctxFull m env.chip) (.manifestInfo true)),
        .emit (fireStateEvent (ctxFull m env.chip) (.preparing false)),
        .emit (fireStateEvent (ctxFull m env.chip) (.preparing true))] ++
      (if ef then
        [.emit (fireStateEvent (ctxFull m env.chip) (.erasing false)),
          .emit (fireStateEvent (ctxFull m env.chip) (.erasing true))]
      else []) ++
      [.emit (fireStateEvent (ctxFull m env.chip) (.writing sizes.sum 0 0))] ++
      (writeParts env (ctxFull m env.chip) sizes.sum sizes 0 0 0).1 ++
      (if (writeParts env (ctxFull m env.chip) sizes.sum sizes 0 0 0).2 then
        [.emit (fireStateEvent (ctxFull m env.chip)
            (.writing sizes.sum sizes.sum 100)),
          .disconnect,
          .emit (fireStateEvent (ctxFull m env.chip) .finished)]
      else []) := by
  by_cases hw : (writeParts env (ctxFull m env.chip) sizes.sum sizes 0 0 0).2 = true
  · simp [flash, hc, hi, hm, hsb, hdl, hw]
  · rw [Bool.not_eq_true] at hw
    simp [flash, hc, hi, hm, hsb, hdl, hw]

theorem kind_fireStateEvent (ctx : Ctx) (k : StateKind) :
    (fireStateEvent ctx k).kind = k := rfl

/-! ### Selection and chip-family lemmas -/

theorem find_first {α : Type} (p : α → Bool) :
    ∀ (l : List α) (a : α), l.find? p = some a →
      ∃ i, ∃ hi : i < l.length, l.get ⟨i, hi⟩ = a ∧ p a = true ∧
        ∀ j, ∀ hj : j < i, p (l.get ⟨j, Nat.lt_trans hj hi⟩) = false
  | [], a, h => by simp at h
  | x :: l, a, h => by
    by_cases hx : p x = true
    · rw [List.find?_cons_of_pos _ hx] at h
      obtain rfl : x = a := by simpa using h
      exact ⟨0, Nat.succ_pos _, rfl, hx, fun j hj => absurd hj (Nat.not_lt_zero j)⟩
    · rw [List.find?_cons_of_neg _ hx] at h
      obtain ⟨i, hi, hget, hp, hfirst⟩ := find_first p l a h
      refine ⟨i + 1, Nat.succ_lt_succ hi, by simpa using hget, hp, ?_⟩
      intro j hj
      cases j with
      | zero => simpa using hx
      | succ j2 =>
        have := hfirst j2 (Nat.lt_of_succ_lt_succ hj)
        simpa using this

theorem chipMatch_s2 (bc : BuildChip) : chipMatch bc .esp32s2 = false := by
  cases bc <;> rfl

theorem chipMatch_unknown (bc : BuildChip) : chipMatch bc .unknownChip = false := by
  cases bc <;> rfl

/-! ### Claim theorems -/

/-- C7: when the initial device connection step fails or is cancelled by the
user, the run ends immediately and silently: no action is performed and no
`FlashState` of any kind (including Error) is emitted. -/
theorem cancelled_connect_silent (env : Env) (eraseFirst : Bool)
    (h : env.connectOk = false) :
    flash env eraseFirst = [] ∧ flashEvents env eraseFirst = [] := by
  refine ⟨by simp [flash, h], ?_⟩
  simp [flashEvents, flash, h, eventsOf]

/-- Witness: `cancelled_connect_silent` at a concrete cancelled run. -/
theorem cancelled_connect_silent_witness :
    flash envCancelled false = [] ∧ flashEvents envCancelled false = [] :=
  cancelled_connect_silent envCancelled false rfl

/-- C5: build selection returns the first build of the manifest whose
`chipFamily` equals the detected chip family, and returns `none` — not an
exception — when no build matches; in the no-match case the run terminates
with Error(NotSupported) whose details carry the detected chip family. -/
theorem build_selection_spec :
    (∀ (m : Manifest) (chip : DetectedChip) (b : Build),
      selectBuild m chip = some b →
      ∃ i, ∃ hi : i < m.builds.length, m.builds.get ⟨i, hi⟩ = b ∧
        chipMatch b.chipFamily chip = true ∧
        ∀ j, ∀ hj : j < i,
          chipMatch (m.builds.get ⟨j, Nat.lt_trans hj hi⟩).chipFamily chip = false) ∧
    (∀ (env : Env) (eraseFirst : Bool) (m : Manifest),
      env.connectOk = true → env.initOk = true →
      env.manifestResult = some m →
      selectBuild m env.chip = none →
      flashEvents env eraseFirst =
        [fireStateEvent ctxStart (.initializing false),
          fireStateEvent (ctxChip env.chip) (.initializing true),
          fireStateEvent (ctxChip env.chip) (.manifestInfo false),
          fireStateEvent (ctxFull m env.chip) (.manifestInfo true),
          fireStateEvent (ctxFull m env.chip)
            (.error .not_supported (.chip env.chip))]) := by
  constructor
  · intro m chip b h
    rw [selectBuild] at h
    exact find_first (fun b2 => chipMatch b2.chipFamily chip) m.builds b h
  · intro env ef m hc hi hm hsb
    rw [flashEvents, flash_no_build env ef m hc hi hm hsb]
    simp [eventsOf]

/-- Witness: `build_selection_spec` applied to a concrete manifest (first
matching build selected) and a concrete no-match run. -/
theorem build_selection_spec_witness :
    (∃ i, ∃ hi : i < mW.builds.length, mW.builds.get ⟨i, hi⟩ = bW ∧
      chipMatch bW.chipFamily .esp32 = true ∧
      ∀ j, ∀ hj : j < i,
        chipMatch (mW.builds.get ⟨j, Nat.lt_trans hj hi⟩).chipFamily .esp32 = false) ∧
    flashEvents envWrongChip false =
      [fireStateEvent ctxStart (.initializing false),
        fireStateEvent (ctxChip .esp8266) (.initializing true),
        fireStateEvent (ctxChip .esp8266) (.manifestInfo false),
        fireStateEvent (ctxFull mW .esp8266) (.manifestInfo true),
        fireStateEvent (ctxFull mW .esp8266)
          (.error .not_supported (.chip .esp8266))] :=
  ⟨build_selection_spec.1 mW .esp32 bW rfl,
    build_selection_spec.2 envWrongChip false mW rfl rfl rfl rfl⟩

/-- C10: since the declared `Build.chipFamily` type only admits ESP32 and
ESP8266, a run whose detected chip family is ESP32-S2 or Unknown Chip can
never select a build, and after successful initialization and manifest fetch
it terminates with Error(NotSupported). -/
theorem undetectable_chip_not_supported (env : Env) (eraseFirst : Bool)
    (m : Manifest)
    (hc : env.connectOk = true) (hi : env.initOk = true)
    (hm : env.manifestResult = some m)
    (hchip : env.chip = .esp32s2 ∨ env.chip = .unknownChip) :
    selectBuild m env.chip = none ∧
    flashEvents env eraseFirst =
      [fireStateEvent ctxStart (.initializing false),
        fireStateEvent (ctxChip env.chip) (.initializing true),
        fireStateEvent (ctxChip env.chip) (.manifestInfo false),
        fireStateEvent (ctxFull m env.chip) (.manifestInfo true),
        fireStateEvent (ctxFull m env.chip)
          (.error .not_supported (.chip env.chip))] := by
  have hsb : selectBuild m env.chip = none := by
    rw [selectBuild, List.find?_eq_none]
    intro b _
    rcases hchip with h | h <;> rw [h] <;>
      simp [chipMatch_s2, chipMatch_unknown]
  refine ⟨hsb, ?_⟩
  rw [flashEvents, flash_no_build env eraseFirst m hc hi hm hsb]
  simp [eventsOf]

/-- Witness: `undetectable_chip_not_supported` at a concrete ESP32-S2 run. -/
theorem undetectable_chip_not_supported_witness :
    selectBuild mW .esp32s2 = none ∧
    flashEvents envS2 false =
      [fireStateEvent ctxStart (.initializing false),
        fireStateEvent (ctxChip .esp32s2) (.initializing true),
        fireStateEvent (ctxChip .esp32s2) (.manifestInfo false),
        fireStateEvent (ctxFull mW .esp32s2) (.manifestInfo true),
        fireStateEvent (ctxFull mW .esp32s2)
          (.error .not_supported (.chip .esp32s2))] :=
  undetectable_chip_not_supported envS2 false mW rfl rfl rfl (Or.inl rfl)

/-- C6: a part whose fetch resolves with a non-success HTTP status terminates
the run with Error(FailedFirmwareDownload) carrying the HTTP status and the
part's path, and no Erasing or Writing state is ever emitted in such a
run. -/
theorem part_download_http_error (env : Env) (ef : Bool) (m : Manifest)
    (b : Build) (i s : Nat)
    (hc : env.connectOk = true) (hi : env.initOk = true)
    (hm : env.manifestResult = some m)
    (hsb : selectBuild m env.chip = some b)
    (hlt : i < b.parts.length)
    (hfail : env.partFetch i = .httpError s)
    (hfirst : ∀ j, j < i → (env.partFetch j).isOk = true) :
    flashEvents env ef =
      [fireStateEvent ctxStart (.initializing false),
        fireStateEvent (ctxChip env.chip) (.initializing true),
        fireStateEvent (ctxChip env.chip) (.manifestInfo false),
        fireStateEvent (ctxFull m env.chip) (.manifestInfo true),
        fireStateEvent (ctxFull m env.chip) (.preparing false),
        fireStateEvent (ctxFull m env.chip)
          (.error .failed_firmware_download
            (.download (b.parts.get ⟨i, hlt⟩).path s))] ∧
    ∀ e ∈ flashEvents env ef,
      e.kind.isErasing = false ∧ e.kind.isWritingState = false := by
  have hdl := downloadParts_first_http env b.parts 0 i hlt s
    (by simpa using hfail) (fun j hj => by simpa using hfirst j hj)
  have hfl := flash_download_fail env ef m b _ hc hi hm hsb hdl
  have hev : flashEvents env ef =
      [fireStateEvent ctxStart (.initializing false),
        fireStateEvent (ctxChip env.chip) (.initializing true),
        fireStateEvent (ctxChip env.chip) (.manifestInfo false),
        fireStateEvent (ctxFull m env.chip) (.manifestInfo true),
        fireStateEvent (ctxFull m env.chip) (.preparing false),
        fireStateEvent (ctxFull m env.chip)
          (.error .failed_firmware_download
            (.download (b.parts.get ⟨i, hlt⟩).path s))] := by
    rw [flashEvents, hfl]
    simp [eventsOf]
  refine ⟨hev, ?_⟩
  rw [hev]
  intro e he
  simp only [List.mem_cons, List.not_mem_nil, or_false] at he
  rcases he with rfl | rfl | rfl | rfl | rfl | rfl <;>
    exact ⟨rfl, rfl⟩

/-- Witness: `part_download_http_error` at a concrete 404 run. -/
theorem part_download_http_error_witness :
    flashEvents envHttp404 false =
      [fireStateEvent ctxStart (.initializing false),
        fireStateEvent (ctxChip .esp32) (.initializing true),
        fireStateEvent (ctxChip .esp32) (.manifestInfo false),
        fireStateEvent (ctxFull mW .esp32) (.manifestInfo true),
        fireStateEvent (ctxFull mW .esp32) (.preparing false),
        fireStateEvent (ctxFull mW .esp32)
          (.error .failed_firmware_download (.download "a.bin" 404))] :=
  (part_download_http_error envHttp404 false mW bW 0 404 rfl rfl rfl rfl
    (by decide) rfl (fun j hj => absurd hj (Nat.not_lt_zero j))).1

/-- C1: in a fully successful run the emitted state sequence is exactly
Initializing(false), Initializing(true), Manifest(false), Manifest(true),
Preparing(false), Preparing(true), then Erasing(false), Erasing(true) if and
only if `eraseFirst` is set, then Writing(0%), zero or more Writing progress
states, Writing(100%), and finally Finished. -/
theorem success_state_sequence (env : Env) (eraseFirst : Bool) (m : Manifest)
    (b : Build)
    (hc : env.connectOk = true) (hi : env.initOk = true)
    (hm : env.manifestResult = some m)
    (hsb : selectBuild m env.chip = some b)
    (hdl : ∀ j, j < b.parts.length → (env.partFetch j).isOk = true)
    (hwr : ∀ j, j < b.parts.length → (env.writeOutcome j).isOk = true) :
    ∃ (total : Nat) (progress : List StateKind),
      (flashEvents env eraseFirst).map (·.kind) =
        [.initializing false, .initializing true,
          .manifestInfo false, .manifestInfo true,
          .preparing false, .preparing true] ++
        (if eraseFirst then [.erasing false, .erasing true] else []) ++
        [.writing total 0 0] ++ progress ++
        [.writing total total 100, .finished] ∧
      ∀ k ∈ progress, ∃ bw p, k = StateKind.writing total bw p := by
  have hdl0 : downloadParts env b.parts 0 = .ok (fetchSizes env b.parts.length) := by
    have := downloadParts_ok_sizes env b.parts 0 (fun j hj => by simpa using hdl j hj)
    simpa [fetchSizes] using this
  set sizes := fetchSizes env b.parts.length with hsizes
  have hlen : sizes.length = b.parts.length := by
    simp [hsizes, fetchSizes]
  have hw2 : (writeParts env (ctxFull m env.chip) sizes.sum sizes 0 0 0).2 = true :=
    writeParts_true env (ctxFull m env.chip) sizes.sum sizes 0 0 0
      (fun j hj => by simpa using hwr j (hlen ▸ hj))
  have hfl := flash_write_branch env eraseFirst m b sizes hc hi hm hsb hdl0
  rw [hw2, if_pos rfl] at hfl
  refine ⟨sizes.sum,
    (eventsOf (writeParts env (ctxFull m env.chip) sizes.sum sizes 0 0 0).1).map
      (·.kind), ?_, ?_⟩
  · rw [flashEvents, hfl]
    rw [eventsOf_append, eventsOf_append, eventsOf_append, eventsOf_append]
    cases eraseFirst <;>
      simp [eventsOf, kind_fireStateEvent]
  · intro k hk
    rw [List.mem_map] at hk
    obtain ⟨e, he, rfl⟩ := hk
    obtain ⟨bw, p, heq⟩ := writeParts_ok_mem env (ctxFull m env.chip) sizes.sum
      sizes 0 0 0 _ hw2 (mem_eventsOf.mp he)
    obtain rfl : e = fireStateEvent (ctxFull m env.chip) (.writing sizes.sum bw p) :=
      Action.emit.inj heq
    exact ⟨bw, p, rfl⟩

/-- Witness: `success_state_sequence` at a concrete successful run with the
erase-first flag set. -/
theorem success_state_sequence_witness :
    ∃ (total : Nat) (progress : List StateKind),
      (flashEvents envSuccess true).map (·.kind) =
        [.initializing false, .initializing true,
          .manifestInfo false, .manifestInfo true,
          .preparing false, .preparing true] ++
        (if true then [.erasing false, .erasing true] else []) ++
        [.writing total 0 0] ++ progress ++
        [.writing total total 100, .finished] ∧
      ∀ k ∈ progress, ∃ bw p, k = StateKind.writing total bw p :=
  success_state_sequence envSuccess true mW bW rfl rfl rfl rfl
    (fun _ _ => rfl) (fun _ _ => rfl)

theorem forall_dropLast_of_eq {l f : List FlashEvent} {z : FlashEvent}
    (h : l = f ++ [z]) (hf : ∀ e ∈ f, e.kind.isTerminal = false) :
    ∀ e ∈ l.dropLast, e.kind.isTerminal = false := by
  subst h
  rw [List.dropLast_concat]
  exact hf

theorem no_terminal_before_last (env : Env) (ef : Bool) :
    ∀ e ∈ (flashEvents env ef).dropLast, e.kind.isTerminal = false := by
  cases hc : env.connectOk with
  | false =>
    intro e he
    rw [flashEvents] at he
    simp [flash, hc, eventsOf] at he
  | true =>
  cases hi : env.initOk with
  | false =>
    cases hd : env.connectedAfterInitFail with
    | false =>
      intro e he
      rw [flashEvents, flash_init_fail_disc env ef hc hi hd] at he
      simp [eventsOf] at he
    | true =>
      intro e he
      rw [flashEvents, flash_init_fail_conn env ef hc hi hd] at he
      simp [eventsOf, List.dropLast] at he
      subst he
      rfl
  | true =>
  cases hm : env.manifestResult with
  | none =>
    intro e he
    rw [flashEvents, flash_manifest_fail env ef hc hi hm] at he
    simp [eventsOf, List.dropLast] at he
    rcases he with rfl | rfl | rfl <;> rfl
  | some m =>
  cases hsb : selectBuild m env.chip with
  | none =>
    intro e he
    rw [flashEvents, flash_no_build env ef m hc hi hm hsb] at he
    simp [eventsOf, List.dropLast] at he
    rcases he with rfl | rfl | rfl | rfl <;> rfl
  | some b =>
  cases hdl : downloadParts env b.parts 0 with
  | error d =>
    intro e he
    rw [flashEvents, flash_download_fail env ef m b d hc hi hm hsb hdl] at he
    simp [eventsOf, List.dropLast] at he
    rcases he with rfl | rfl | rfl | rfl | rfl <;> rfl
  | ok sizes =>
    have hfl := flash_write_branch env ef m b sizes hc hi hm hsb hdl
    cases hw2 : (writeParts env (ctxFull m env.chip) sizes.sum sizes 0 0 0).2 with
    | true =>
      rw [hw2, if_pos rfl] at hfl
      refine forall_dropLast_of_eq (f :=
        [fireStateEvent ctxStart (.initializing false),
          fireStateEvent (ctxChip env.chip) (.initializing true),
          fireStateEvent (ctxChip env.chip) (.manifestInfo false),
          fireStateEvent (ctxFull m env.chip) (.manifestInfo true),
          fireStateEvent (ctxFull m env.chip) (.preparing false),
          fireStateEvent (ctxFull m env.chip) (.preparing true)] ++
        (if ef then
          [fireStateEvent (ctxFull m env.chip) (.erasing false),
            fireStateEvent (ctxFull m env.chip) (.erasing true)]
        else []) ++
        [fireStateEvent (ctxFull m env.chip) (.writing sizes.sum 0 0)] ++
        eventsOf (writeParts env (ctxFull m env.chip) sizes.sum sizes 0 0 0).1 ++
        [fireStateEvent (ctxFull m env.chip) (.writing sizes.sum sizes.sum 100)])
        (z := fireStateEvent (ctxFull m env.chip) .finished) ?_ ?_
      · rw [flashEvents, hfl]
        rw [eventsOf_append, eventsOf_append, eventsOf_append, eventsOf_append]
        cases ef <;> simp [eventsOf]
      · intro e he
        simp only [List.mem_append] at he
        rcases he with ((((he | he) | he) | he) | he)
        · simp only [List.mem_cons, List.not_mem_nil, or_false] at he
          rcases he with rfl | rfl | rfl | rfl | rfl | rfl <;> rfl
        · cases ef with
          | false => simp at he
          | true =>
            simp at he
            rcases he with rfl | rfl <;> rfl
        · simp only [List.mem_cons, List.not_mem_nil, or_false] at he
          subst he
          rfl
        · obtain ⟨bw, p, heq⟩ := writeParts_ok_mem env (ctxFull m env.chip)
            sizes.sum sizes 0 0 0 _ hw2 (mem_eventsOf.mp he)
          obtain rfl : e = fireStateEvent (ctxFull m env.chip)
              (.writing sizes.sum bw p) := Action.emit.inj heq
          rfl
        · simp only [List.mem_cons, List.not_mem_nil, or_false] at he
          subst he
          rfl
    | false =>
      rw [hw2] at hfl
      simp only [Bool.false_eq_true, if_false, List.append_nil] at hfl
      obtain ⟨front, hshape, hfront⟩ := writeParts_fail_shape env
        (ctxFull m env.chip) sizes.sum sizes 0 0 0 hw2
      rw [hshape] at hfl
      refine forall_dropLast_of_eq (f :=
        [fireStateEvent ctxStart (.initializing false),
          fireStateEvent (ctxChip env.chip) (.initializing true),
          fireStateEvent (ctxChip env.chip) (.manifestInfo false),
          fireStateEvent (ctxFull m env.chip) (.manifestInfo true),
          fireStateEvent (ctxFull m env.chip) (.preparing false),
          fireStateEvent (ctxFull m env.chip) (.preparing true)] ++
        (if ef then
          [fireStateEvent (ctxFull m env.chip) (.erasing false),
            fireStateEvent (ctxFull m env.chip) (.erasing true)]
        else []) ++
        [fireStateEvent (ctxFull m env.chip) (.writing sizes.sum 0 0)] ++
        eventsOf front)
        (z := fireStateEvent (ctxFull m env.chip)
          (.error .write_failed .writeErr)) ?_ ?_
      · rw [flashEvents, hfl]
        rw [eventsOf_append, eventsOf_append, eventsOf_append, eventsOf_append]
        cases ef <;> simp [eventsOf]
      · intro e he
        simp only [List.mem_append] at he
        rcases he with ((he | he) | he) | he
        · simp only [List.mem_cons, List.not_mem_nil, or_false] at he
          rcases he with rfl | rfl | rfl | rfl | rfl | rfl <;> rfl
        · cases ef with
          | false => simp at he
          | true =>
            simp at he
            rcases he with rfl | rfl <;> rfl
        · simp only [List.mem_cons, List.not_mem_nil, or_false] at he
          subst he
          rfl
        · obtain ⟨bw, p, heq⟩ := hfront _ (mem_eventsOf.mp he)
          obtain rfl : e = fireStateEvent (ctxFull m env.chip)
              (.writing sizes.sum bw p) := Action.emit.inj heq
          rfl

/-- C8: Error and Finished are terminal in the emitted stream: any state
emitted strictly before another state of the same run is neither Error nor
Finished, so once a terminal state is emitted no further state follows. -/
theorem terminal_states_final (env : Env) (eraseFirst : Bool) (i j : Nat)
    (hj : j < (flashEvents env eraseFirst).length) (hij : i < j) :
    ((flashEvents env eraseFirst).get
      ⟨i, Nat.lt_trans hij hj⟩).kind.isTerminal = false := by
  have hi2 : i < (flashEvents env eraseFirst).dropLast.length := by
    rw [List.length_dropLast]
    omega
  have heq : (flashEvents env eraseFirst).dropLast.get ⟨i, hi2⟩ =
      (flashEvents env eraseFirst).get ⟨i, Nat.lt_trans hij hj⟩ := by
    simp [List.get_eq_getElem, List.getElem_dropLast]
  rw [← heq]
  exact no_terminal_before_last env eraseFirst _ (List.get_mem _ _ _)

/-- Witness: `terminal_states_final` at a concrete successful run. -/
theorem terminal_states_final_witness :
    ((flashEvents envSuccess false).get
      ⟨0, Nat.lt_trans (by decide : (0 : Nat) < 1)
        (by decide : 1 < (flashEvents envSuccess false).length)⟩).kind.isTerminal =
      false :=
  terminal_states_final envSuccess false 0 1 (by decide) (by decide)

/-! ### Context monotonicity -/

theorem ctxLE_refl (c : Ctx) : ctxLE c c :=
  ⟨fun _ h => h, fun _ h => h, fun _ h => h⟩

theorem ctxLE_start (c : Ctx) : ctxLE ctxStart c := by
  refine ⟨?_, ?_, ?_⟩ <;> intro x hx <;> simp [ctxStart] at hx

theorem ctxLE_chip_full (m : Manifest) (c : DetectedChip) :
    ctxLE (ctxChip c) (ctxFull m c) := by
  refine ⟨?_, ?_, ?_⟩ <;> intro x hx
  · simp [ctxChip] at hx
  · simp [ctxChip] at hx
  · simpa [ctxChip, ctxFull] using hx

theorem eventCtx_fireStateEvent (ctx : Ctx) (k : StateKind) :
    eventCtx (fireStateEvent ctx k) = ctx := rfl

theorem writeParts_events_ctx (env : Env) (ctx : Ctx) (ts : Nat) :
    ∀ (sizes : List Nat) (idx tw lp : Nat),
      ∀ e ∈ eventsOf (writeParts env ctx ts sizes idx tw lp).1, eventCtx e = ctx
  | [], _, _, _ => by simp [writeParts, eventsOf]
  | size :: rest, idx, tw, lp => by
    intro e he
    rw [writeParts] at he
    cases hw : env.writeOutcome idx with
    | ok cbs =>
      rw [hw] at he
      rw [eventsOf_append] at he
      rcases List.mem_append.mp he with he | he
      · obtain ⟨bw, _, heq⟩ := runCallbacks_mem ctx ts tw cbs lp _ (mem_eventsOf.mp he)
        obtain rfl : e = fireStateEvent ctx (.writing ts (tw + bw) ((tw + bw) * 100 / ts)) :=
          Action.emit.inj heq
        rfl
      · exact writeParts_events_ctx env ctx ts rest (idx + 1) (tw + size) _ e he
    | fail cbs =>
      rw [hw] at he
      rw [eventsOf_append] at he
      rcases List.mem_append.mp he with he | he
      · obtain ⟨bw, _, heq⟩ := runCallbacks_mem ctx ts tw cbs lp _ (mem_eventsOf.mp he)
        obtain rfl : e = fireStateEvent ctx (.writing ts (tw + bw) ((tw + bw) * 100 / ts)) :=
          Action.emit.inj heq
        rfl
      · simp [eventsOf] at he
        subst he
        rfl

theorem pairwise_blocks {c1 c2 c3 : Ctx}
    (h12 : ctxLE c1 c2) (h13 : ctxLE c1 c3) (h23 : ctxLE c2 c3)
    (l1 l2 l3 : List FlashEvent)
    (h1 : ∀ e ∈ l1, eventCtx e = c1)
    (h2 : ∀ e ∈ l2, eventCtx e = c2)
    (h3 : ∀ e ∈ l3, eventCtx e = c3) :
    (l1 ++ l2 ++ l3).Pairwise eventCtxLE := by
  have hsame : ∀ (l : List FlashEvent) (c : Ctx), (∀ e ∈ l, eventCtx e = c) →
      l.Pairwise eventCtxLE := by
    intro l c h
    refine List.pairwise_of_forall_mem_list ?_
    intro a ha b hb
    unfold eventCtxLE
    rw [h a ha, h b hb]
    exact ctxLE_refl c
  rw [List.pairwise_append]
  refine ⟨?_, hsame l3 c3 h3, ?_⟩
  · rw [List.pairwise_append]
    refine ⟨hsame l1 c1 h1, hsame l2 c2 h2, ?_⟩
    intro a ha b hb
    unfold eventCtxLE
    rw [h1 a ha, h2 b hb]
    exact h12
  · intro a ha b hb
    rcases List.mem_append.mp ha with ha | ha
    · unfold eventCtxLE
      rw [h1 a ha, h3 b hb]
      exact h13
    · unfold eventCtxLE
      rw [h2 a ha, h3 b hb]
      exact h23

theorem events_ctx_pairwise (env : Env) (ef : Bool) :
    (flashEvents env ef).Pairwise eventCtxLE := by
  cases hc : env.connectOk with
  | false =>
    have : flashEvents env ef = [] := by simp [flashEvents, flash, hc, eventsOf]
    rw [this]
    exact List.Pairwise.nil
  | true =>
  cases hi : env.initOk with
  | false =>
    cases hd : env.connectedAfterInitFail with
    | false =>
      rw [flashEvents, flash_init_fail_disc env ef hc hi hd]
      have : eventsOf [.emit (fireStateEvent ctxStart (.initializing false))] =
          [fireStateEvent ctxStart (.initializing false)] ++ [] ++ [] := by
        simp [eventsOf]
      rw [this]
      refine pairwise_blocks (ctxLE_refl ctxStart) (ctxLE_refl ctxStart)
        (ctxLE_refl ctxStart) _ _ _ ?_ ?_ ?_ <;> intro e he <;> simp at he
      subst he
      rfl
    | true =>
      rw [flashEvents, flash_init_fail_conn env ef hc hi hd]
      have : eventsOf
          [.emit (fireStateEvent ctxStart (.initializing false)),
            .emit (fireStateEvent ctxStart (.error .failed_initializing .initErr)),
            .disconnect] =
          [fireStateEvent ctxStart (.initializing false),
            fireStateEvent ctxStart (.error .failed_initializing .initErr)] ++
            [] ++ [] := by
        simp [eventsOf]
      rw [this]
      refine pairwise_blocks (ctxLE_refl ctxStart) (ctxLE_refl ctxStart)
        (ctxLE_refl ctxStart) _ _ _ ?_ ?_ ?_ <;> intro e he <;> simp at he
      rcases he with rfl | rfl <;> rfl
  | true =>
  cases hm : env.manifestResult with
  | none =>
    rw [flashEvents, flash_manifest_fail env ef hc hi hm]
    have : eventsOf
        [.emit (fireStateEvent ctxStart (.initializing false)),
          .emit (fireStateEvent (ctxChip env.chip) (.initializing true)),
          .emit (fireStateEvent (ctxChip env.chip) (.manifestInfo false)),
          .emit (fireStateEvent (ctxChip env.chip)
            (.error .failed_manifest_fetch .manifestErr)),
          .disconnect] =
        [fireStateEvent ctxStart (.initializing false)] ++
          [fireStateEvent (ctxChip env.chip) (.initializing true),
            fireStateEvent (ctxChip env.chip) (.manifestInfo false),
            fireStateEvent (ctxChip env.chip)
              (.error .failed_manifest_fetch .manifestErr)] ++ [] := by
      simp [eventsOf]
    rw [this]
    refine pairwise_blocks (ctxLE_start (ctxChip env.chip))
      (ctxLE_start (ctxChip env.chip)) (ctxLE_refl (ctxChip env.chip))
      _ _ _ ?_ ?_ ?_ <;> intro e he <;> simp at he
    · subst he; rfl
    · rcases he with rfl | rfl | rfl <;> rfl
  | some m =>
  cases hsb : selectBuild m env.chip with
  | none =>
    rw [flashEvents, flash_no_build env ef m hc hi hm hsb]
    have : eventsOf
        [.emit (fireStateEvent ctxStart (.initializing false)),
          .emit (fireStateEvent (ctxChip env.chip) (.initializing true)),
          .emit (fireStateEvent (ctxChip env.chip) (.manifestInfo false)),
          .emit (fireStateEvent (ctxFull m env.chip) (.manifestInfo true)),
          .emit (fireStateEvent (ctxFull m env.chip)
            (.error .not_supported (.chip env.chip))),
          .disconnect] =
        [fireStateEvent ctxStart (.initializing false)] ++
          [fireStateEvent (ctxChip env.chip) (.initializing true),
            fireStateEvent (ctxChip env.chip) (.manifestInfo false)] ++
          [fireStateEvent (ctxFull m env.chip) (.manifestInfo true),
            fireStateEvent (ctxFull m env.chip)
              (.error .not_supported (.chip env.chip))] := by
      simp [eventsOf]
    rw [this]
    refine pairwise_blocks (ctxLE_start (ctxChip env.chip))
      (ctxLE_start (ctxFull m env.chip)) (ctxLE_chip_full m env.chip)
      _ _ _ ?_ ?_ ?_ <;> intro e he <;> simp at he
    · subst he; rfl
    · rcases he with rfl | rfl <;> rfl
    · rcases he with rfl | rfl <;> rfl
  | some b =>
  cases hdl : downloadParts env b.parts 0 with
  | error d =>
    rw [flashEvents, flash_download_fail env ef m b d hc hi hm hsb hdl]
    have : eventsOf
        [.emit (fireStateEvent ctxStart (.initializing false)),
          .emit (fireStateEvent (ctxChip env.chip) (.initializing true)),
          .emit (fireStateEvent (ctxChip env.chip) (.manifestInfo false)),
          .emit (fireStateEvent (ctxFull m env.chip) (.manifestInfo true)),
          .emit (fireStateEvent (ctxFull m env.chip) (.preparing false)),
          .emit (fireStateEvent (ctxFull m env.chip)
            (.error .failed_firmware_download d)),
          .disconnect] =
        [fireStateEvent ctxStart (.initializing false)] ++
          [fireStateEvent (ctxChip env.chip) (.initializing true),
            fireStateEvent (ctxChip env.chip) (.manifestInfo false)] ++
          [fireStateEvent (ctxFull m env.chip) (.manifestInfo true),
            fireStateEvent (ctxFull m env.chip) (.preparing false),
            fireStateEvent (ctxFull m env.chip)
              (.error .failed_firmware_download d)] := by
      simp [eventsOf]
    rw [this]
    refine pairwise_blocks (ctxLE_start (ctxChip env.chip))
      (ctxLE_start (ctxFull m env.chip)) (ctxLE_chip_full m env.chip)
      _ _ _ ?_ ?_ ?_ <;> intro e he <;> simp at he
    · subst he; rfl
    · rcases he with rfl | rfl <;> rfl
    · rcases he with rfl | rfl | rfl <;> rfl
  | ok sizes =>
    have hfl := flash_write_branch env ef m b sizes hc hi hm hsb hdl
    have hev : flashEvents env ef =
        [fireStateEvent ctxStart (.initializing false)] ++
          [fireStateEvent (ctxChip env.chip) (.initializing true),
            fireStateEvent (ctxChip env.chip) (.manifestInfo false)] ++
          ([fireStateEvent (ctxFull m env.chip) (.manifestInfo true),
            fireStateEvent (ctxFull m env.chip) (.preparing false),
            fireStateEvent (ctxFull m env.chip) (.preparing true)] ++
          (if ef then
            [fireStateEvent (ctxFull m env.chip) (.erasing false),
              fireStateEvent (ctxFull m env.chip) (.erasing true)]
          else []) ++
          [fireStateEvent (ctxFull m env.chip) (.writing sizes.sum 0 0)] ++
          eventsOf (writeParts env (ctxFull m env.chip) sizes.sum sizes 0 0 0).1 ++
          (if (writeParts env (ctxFull m env.chip) sizes.sum sizes 0 0 0).2 then
            [fireStateEvent (ctxFull m env.chip)
                (.writing sizes.sum sizes.sum 100),
              fireStateEvent (ctxFull m env.chip) .finished]
          else [])) := by
      rw [flashEvents, hfl]
      rw [eventsOf_append, eventsOf_append, eventsOf_append, eventsOf_append]
      cases ef <;>
        cases hw2 : (writeParts env (ctxFull m env.chip) sizes.sum sizes 0 0 0).2 <;>
        simp [eventsOf, hw2]
    rw [hev]
    refine pairwise_blocks (ctxLE_start (ctxChip env.chip))
      (ctxLE_start (ctxFull m env.chip)) (ctxLE_chip_full m env.chip)
      _ _ _ ?_ ?_ ?_
    · intro e he
      simp at he
      subst he
      rfl
    · intro e he
      simp at he
      rcases he with rfl | rfl <;> rfl
    · intro e he
      simp only [List.mem_append] at he
      rcases he with ((((he | he) | he) | he) | he)
      · simp at he
        rcases he with rfl | rfl | rfl <;> rfl
      · cases ef with
        | false => simp at he
        | true =>
          simp at he
          rcases he with rfl | rfl <;> rfl
      · simp at he
        subst he
        rfl
      · exact writeParts_events_ctx env (ctxFull m env.chip) sizes.sum
          sizes 0 0 0 e he
      · cases hw2 : (writeParts env (ctxFull m env.chip) sizes.sum sizes 0 0 0).2 with
        | false => rw [hw2] at he; simp at he
        | true =>
          rw [hw2] at he
          simp at he
          rcases he with rfl | rfl <;> rfl

/-- C9: the context fields `manifest`, `build` and `chipFamily` are
monotonically filled in and never cleared along the emitted stream: whenever
a field is set (non-undefined) on an earlier emitted state, every later
emitted state of the run carries the same value for it. -/
theorem context_monotone (env : Env) (eraseFirst : Bool) (i j : Nat)
    (hj : j < (flashEvents env eraseFirst).length) (hij : i < j) :
    eventCtxLE ((flashEvents env eraseFirst).get ⟨i, Nat.lt_trans hij hj⟩)
      ((flashEvents env eraseFirst).get ⟨j, hj⟩) := by
  have hp := events_ctx_pairwise env eraseFirst
  rw [List.pairwise_iff_getElem] at hp
  simpa [List.get_eq_getElem] using hp i j (Nat.lt_trans hij hj) hj hij

/-- Witness: `context_monotone` between the first two states of a concrete
run. -/
theorem context_monotone_witness :
    eventCtxLE ((flashEvents envSuccess false).get
        ⟨0, Nat.lt_trans (by decide : (0 : Nat) < 1)
          (by decide : 1 < (flashEvents envSuccess false).length)⟩)
      ((flashEvents envSuccess false).get
        ⟨1, (by decide : 1 < (flashEvents envSuccess false).length)⟩) :=
  context_monotone envSuccess false 0 1 (by decide) (by decide)

/-- C4: fed a monotonically non-decreasing sequence of cumulative
bytes-written values against a fixed positive `bytesTotal`, the per-chunk
progress callback emits Writing states whose percentage is
`floor(bytesWritten / bytesTotal * 100)`, suppresses an emission exactly when
the computed percentage equals the last emitted percentage (the `destutter'`
of the computed stream relative to `lastPct`), and the emitted percentage
sequence is strictly increasing — non-decreasing with no two consecutive
equal values. -/
theorem progress_tracker_spec (ctx : Ctx) (ts tw : Nat) (cbs : List Nat)
    (lp : Nat) (hts : 0 < ts) (hmono : List.Chain' (· ≤ ·) cbs) :
    (∀ e bt bw p, Action.emit e ∈ (runCallbacks ctx ts tw cbs lp).1 →
      e.kind = .writing bt bw p → bt = ts ∧ p = bw * 100 / ts) ∧
    emittedPcts (runCallbacks ctx ts tw cbs lp).1 =
      (List.destutter' Ne lp (cbs.map fun bw => (tw + bw) * 100 / ts)).tail ∧
    List.Chain' (· < ·) (emittedPcts (runCallbacks ctx ts tw cbs lp).1) := by
  refine ⟨?_, emittedPcts_runCallbacks ctx ts tw cbs lp, ?_⟩
  · intro e bt bw p hmem hkind
    obtain ⟨bw2, _, heq⟩ := runCallbacks_mem ctx ts tw cbs lp _ hmem
    obtain rfl : e =
        fireStateEvent ctx (.writing ts (tw + bw2) ((tw + bw2) * 100 / ts)) :=
      Action.emit.inj heq
    rw [kind_fireStateEvent] at hkind
    injection hkind with h1 h2 h3
    subst h1
    subst h2
    subst h3
    exact ⟨rfl, rfl⟩
  · have hpmono : List.Chain' (· ≤ ·) (cbs.map fun bw => (tw + bw) * 100 / ts) := by
      rw [List.chain'_map]
      exact hmono.imp fun _ _ hab =>
        Nat.div_le_div_right (Nat.mul_le_mul_right 100 (Nat.add_le_add_left hab tw))
    obtain ⟨t, ht⟩ :=
      destutter_ne_head (cbs.map fun bw => (tw + bw) * 100 / ts) lp
    have hsub := List.destutter'_sublist (cbs.map fun bw => (tw + bw) * 100 / ts) Ne lp
    rw [ht] at hsub
    have htsub := List.cons_sublist_cons.mp hsub
    have htle : List.Chain' (· ≤ ·) t := hpmono.sublist htsub
    have htne : List.Chain' (· ≠ ·) t := by
      have hch :=
        List.destutter'_is_chain' (cbs.map fun bw => (tw + bw) * 100 / ts) Ne lp
      rw [ht] at hch
      exact hch.tail
    rw [emittedPcts_runCallbacks ctx ts tw cbs lp, ht, List.tail_cons]
    exact chain_lt_of_le_ne t htle htne

/-- Witness: `progress_tracker_spec` on a concrete callback sequence. -/
theorem progress_tracker_spec_witness :
    (∀ e bt bw p, Action.emit e ∈ (runCallbacks ctxStart 10 0 [5, 10] 0).1 →
      e.kind = .writing bt bw p → bt = 10 ∧ p = bw * 100 / 10) ∧
    emittedPcts (runCallbacks ctxStart 10 0 [5, 10] 0).1 =
      (List.destutter' Ne 0 ([5, 10].map fun bw => (0 + bw) * 100 / 10)).tail ∧
    List.Chain' (· < ·) (emittedPcts (runCallbacks ctxStart 10 0 [5, 10] 0).1) :=
  progress_tracker_spec ctxStart 10 0 [5, 10] 0 (by decide)
    (by
      rw [List.chain'_cons]
      exact ⟨by norm_num, List.chain'_singleton 10⟩)

/-- The Error states of a trace of Writing emissions: none. -/
theorem errorTags_of_writing {ctx : Ctx} {ts : Nat} {acts : List Action}
    (hf : ∀ a ∈ acts, isWritingEmit ctx ts a) :
    errorTags (eventsOf acts) = [] := by
  rw [errorTags, List.filterMap_eq_nil_iff]
  intro e he
  obtain ⟨bw, p, heq⟩ := hf _ (mem_eventsOf.mp he)
  obtain rfl : e = fireStateEvent ctx (.writing ts bw p) := Action.emit.inj heq
  rfl

/-- Counterexample to C3 as stated: in the successful run `envEarly100` the
last per-chunk callback's computed percentage is already 100, the per-chunk
emission fires, and the orchestrator still appends its explicit final 100%
emission — so the Writing(100%) state is emitted twice, not once. -/
theorem writing_100_twice :
    (flashEvents envEarly100 false).countP (fun e => e.kind.isPct100) = 2 ∧
    (flashEvents envEarly100 false).getLast? =
      some (fireStateEvent (ctxFull mW .esp32) .finished) := by
  exact ⟨rfl, rfl⟩

/-- C3 (amended): in every successful run the final 100% Writing state is
produced explicitly by the orchestrator, and it is emitted exactly once
provided no per-chunk callback's computed percentage already reached 100
(i.e. every cumulative bytes-written value stays below `bytesTotal`). -/
theorem writing_100_once (env : Env) (eraseFirst : Bool) (m : Manifest)
    (b : Build)
    (hc : env.connectOk = true) (hi : env.initOk = true)
    (hm : env.manifestResult = some m)
    (hsb : selectBuild m env.chip = some b)
    (hdl : ∀ j, j < b.parts.length → (env.partFetch j).isOk = true)
    (hwr : ∀ j, j < b.parts.length → (env.writeOutcome j).isOk = true)
    (hlow : ∀ j cbs, j < b.parts.length → env.writeOutcome j = .ok cbs →
      ∀ bw ∈ cbs, ((fetchSizes env b.parts.length).take j).sum + bw <
        (fetchSizes env b.parts.length).sum) :
    (flashEvents env eraseFirst).countP (fun e => e.kind.isPct100) = 1 := by
  have hdl0 : downloadParts env b.parts 0 = .ok (fetchSizes env b.parts.length) := by
    have := downloadParts_ok_sizes env b.parts 0 (fun j hj => by simpa using hdl j hj)
    simpa [fetchSizes] using this
  set sizes := fetchSizes env b.parts.length with hsizes
  have hlen : sizes.length = b.parts.length := by
    simp [hsizes, fetchSizes]
  have hok : ∀ j, j < sizes.length → (env.writeOutcome (0 + j)).isOk = true :=
    fun j hj => by simpa using hwr j (hlen ▸ hj)
  have hw2 : (writeParts env (ctxFull m env.chip) sizes.sum sizes 0 0 0).2 = true :=
    writeParts_true env (ctxFull m env.chip) sizes.sum sizes 0 0 0 hok
  have hno100 : ∀ e ∈ eventsOf (writeParts env (ctxFull m env.chip)
      sizes.sum sizes 0 0 0).1, e.kind.isPct100 = false := by
    refine writeParts_no100 env (ctxFull m env.chip) sizes.sum sizes 0 0 0 hok ?_
    intro j cbs hj hcbs bw hbw
    have := hlow j cbs (hlen ▸ hj) (by simpa using hcbs) bw hbw
    simpa [hsizes] using this
  have hfl := flash_write_branch env eraseFirst m b sizes hc hi hm hsb hdl0
  rw [hw2, if_pos rfl] at hfl
  rw [flashEvents, hfl]
  rw [eventsOf_append, eventsOf_append, eventsOf_append, eventsOf_append]
  rw [List.countP_append, List.countP_append, List.countP_append,
    List.countP_append]
  have hwcount : (eventsOf (writeParts env (ctxFull m env.chip)
      sizes.sum sizes 0 0 0).1).countP (fun e => e.kind.isPct100) = 0 := by
    rw [List.countP_eq_zero]
    intro e he
    simp [hno100 e he]
  rw [hwcount]
  cases eraseFirst <;>
    simp [eventsOf, List.countP_cons, StateKind.isPct100, fireStateEvent]

/-- Witness: `writing_100_once` at a concrete run whose single callback stays
below 100%. -/
theorem writing_100_once_witness :
    (flashEvents envSuccess false).countP (fun e => e.kind.isPct100) = 1 :=
  writing_100_once envSuccess false mW bW rfl rfl rfl rfl
    (fun _ _ => rfl) (fun _ _ => rfl)
    (by
      intro j cbs hj hcb bw hbw
      have hj1 : j < 1 := by simpa [bW] using hj
      obtain rfl : j = 0 := by omega
      have h5 : WriteOutcome.ok [5] = .ok cbs := hcb
      obtain rfl : [5] = cbs := WriteOutcome.ok.inj h5
      simp only [List.mem_singleton] at hbw
      subst hbw
      decide)

theorem errorTags_nil_of_no_error {l : List FlashEvent}
    (h : ∀ x ∈ l, x.kind.isError = false) : errorTags l = [] := by
  rw [errorTags, List.filterMap_eq_nil_iff]
  intro x hx
  have hxe := h x hx
  cases hk : x.kind with
  | error t d =>
    rw [hk] at hxe
    simp [StateKind.isError] at hxe
  | initializing d => rfl
  | manifestInfo d => rfl
  | preparing d => rfl
  | erasing d => rfl
  | writing bt bw p => rfl
  | finished => rfl

/-- Counterexample to C2 as stated: in `envInitFailDisc` the device handshake
(a phase operation) fails while the loader reports itself disconnected; the
run is not a user-cancelled connect (it emitted the Initializing state), yet
it terminates with no Error state and no disconnect attempt. -/
theorem init_fail_disconnected_silent :
    envInitFailDisc.connectOk = true ∧
    envInitFailDisc.initOk = false ∧
    flashEvents envInitFailDisc false =
      [fireStateEvent ctxStart (.initializing false)] ∧
    errorTags (flashEvents envInitFailDisc false) = [] ∧
    Action.disconnect ∉ flash envInitFailDisc false :=
  ⟨rfl, rfl, rfl, rfl, by decide⟩

/-- C2 (amended): whenever a phase operation fails (device handshake,
manifest fetch, build selection, part download, flash write), the run
terminates having emitted exactly one Error state tagged with that phase's
taxonomy value, with a disconnect attempted before termination — except a
user-cancelled connect (no state at all, `cancelled_connect_silent`) and a
handshake failure with the device no longer connected, which emits no Error
state and attempts no disconnect. -/
theorem flash_failure_taxonomy (env : Env) (eraseFirst : Bool) (t : FlashError)
    (h : firstFailureTag env = some t) :
    if t = .failed_initializing ∧ env.connectedAfterInitFail = false then
      errorTags (flashEvents env eraseFirst) = [] ∧
      Action.disconnect ∉ flash env eraseFirst
    else
      errorTags (flashEvents env eraseFirst) = [t] ∧
      Action.disconnect ∈ flash env eraseFirst := by
  cases hc : env.connectOk with
  | false =>
    rw [firstFailureTag, hc] at h
    simp at h
  | true =>
  cases hi : env.initOk with
  | false =>
    simp only [firstFailureTag, hc, hi] at h
    simp at h
    subst h
    cases hd : env.connectedAfterInitFail with
    | false =>
      rw [if_pos ⟨rfl, rfl⟩]
      constructor
      · rw [flashEvents, flash_init_fail_disc env eraseFirst hc hi hd]
        simp [errorTags, eventsOf, fireStateEvent]
      · rw [flash_init_fail_disc env eraseFirst hc hi hd]
        simp
    | true =>
      rw [if_neg (by simp [hd])]
      constructor
      · rw [flashEvents, flash_init_fail_conn env eraseFirst hc hi hd]
        simp [errorTags, eventsOf, fireStateEvent]
      · rw [flash_init_fail_conn env eraseFirst hc hi hd]
        simp
  | true =>
  cases hm : env.manifestResult with
  | none =>
    simp [firstFailureTag, hc, hi, hm] at h
    subst h
    rw [if_neg (by simp)]
    constructor
    · rw [flashEvents, flash_manifest_fail env eraseFirst hc hi hm]
      simp [errorTags, eventsOf, fireStateEvent]
    · rw [flash_manifest_fail env eraseFirst hc hi hm]
      simp
  | some m =>
  cases hsb : selectBuild m env.chip with
  | none =>
    simp [firstFailureTag, hc, hi, hm, hsb] at h
    subst h
    rw [if_neg (by simp)]
    constructor
    · rw [flashEvents, flash_no_build env eraseFirst m hc hi hm hsb]
      simp [errorTags, eventsOf, fireStateEvent]
    · rw [flash_no_build env eraseFirst m hc hi hm hsb]
      simp
  | some b =>
    by_cases hfetch :
        (List.range b.parts.length).all (fun i => (env.partFetch i).isOk) = true
    · by_cases hwrite :
          (List.range b.parts.length).all (fun i => (env.writeOutcome i).isOk) = true
      · simp [firstFailureTag, hc, hi, hm, hsb, hfetch, hwrite] at h
      · -- a flash write fails
        simp [firstFailureTag, hc, hi, hm, hsb, hfetch, hwrite] at h
        subst h
        have hallfetch : ∀ j, j < b.parts.length → (env.partFetch j).isOk = true := by
          rw [List.all_eq_true] at hfetch
          exact fun j hj => hfetch j (List.mem_range.mpr hj)
        obtain ⟨j, hj, hbad⟩ : ∃ j, j < b.parts.length ∧
            (env.writeOutcome j).isOk = false := by
          simp only [List.all_eq_true, not_forall] at hwrite
          obtain ⟨x, hx, hbad⟩ := hwrite
          exact ⟨x, List.mem_range.mp hx, by simpa using hbad⟩
        have hdl0 : downloadParts env b.parts 0 =
            .ok (fetchSizes env b.parts.length) := by
          have := downloadParts_ok_sizes env b.parts 0
            (fun j2 hj2 => by simpa using hallfetch j2 hj2)
          simpa [fetchSizes] using this
        set sizes := fetchSizes env b.parts.length with hsizes
        have hlen : sizes.length = b.parts.length := by
          simp [hsizes, fetchSizes]
        have hw2 : (writeParts env (ctxFull m env.chip) sizes.sum sizes 0 0 0).2 =
            false :=
          writeParts_false env (ctxFull m env.chip) sizes.sum sizes 0 0 0 j
            (hlen ▸ hj) (by simpa using hbad)
        obtain ⟨front, hshape, hfront⟩ := writeParts_fail_shape env
          (ctxFull m env.chip) sizes.sum sizes 0 0 0 hw2
        have hfl := flash_write_branch env eraseFirst m b sizes hc hi hm hsb hdl0
        rw [hw2] at hfl
        simp only [Bool.false_eq_true, if_false, List.append_nil] at hfl
        rw [hshape] at hfl
        have hev : flashEvents env eraseFirst =
            ([fireStateEvent ctxStart (.initializing false),
              fireStateEvent (ctxChip env.chip) (.initializing true),
              fireStateEvent (ctxChip env.chip) (.manifestInfo false),
              fireStateEvent (ctxFull m env.chip) (.manifestInfo true),
              fireStateEvent (ctxFull m env.chip) (.preparing false),
              fireStateEvent (ctxFull m env.chip) (.preparing true)] ++
            (if eraseFirst then
              [fireStateEvent (ctxFull m env.chip) (.erasing false),
                fireStateEvent (ctxFull m env.chip) (.erasing true)]
            else []) ++
            [fireStateEvent (ctxFull m env.chip) (.writing sizes.sum 0 0)] ++
            eventsOf front) ++
            [fireStateEvent (ctxFull m env.chip) (.error .write_failed .writeErr)] := by
          rw [flashEvents, hfl]
          rw [eventsOf_append, eventsOf_append, eventsOf_append]
          cases eraseFirst <;> simp [eventsOf]
        rw [if_neg (by simp)]
        constructor
        · rw [hev, errorTags_append]
          have hnoerr : errorTags
              ([fireStateEvent ctxStart (.initializing false),
                fireStateEvent (ctxChip env.chip) (.initializing true),
                fireStateEvent (ctxChip env.chip) (.manifestInfo false),
                fireStateEvent (ctxFull m env.chip) (.manifestInfo true),
                fireStateEvent (ctxFull m env.chip) (.preparing false),
                fireStateEvent (ctxFull m env.chip) (.preparing true)] ++
              (if eraseFirst then
                [fireStateEvent (ctxFull m env.chip) (.erasing false),
                  fireStateEvent (ctxFull m env.chip) (.erasing true)]
              else []) ++
              [fireStateEvent (ctxFull m env.chip) (.writing sizes.sum 0 0)] ++
              eventsOf front) = [] := by
            refine errorTags_nil_of_no_error ?_
            intro x hx
            simp only [List.mem_append] at hx
            rcases hx with ((hx | hx) | hx) | hx
            · simp only [List.mem_cons, List.not_mem_nil, or_false] at hx
              rcases hx with rfl | rfl | rfl | rfl | rfl | rfl <;> rfl
            · cases eraseFirst with
              | false => simp at hx
              | true =>
                simp at hx
                rcases hx with rfl | rfl <;> rfl
            · simp only [List.mem_cons, List.not_mem_nil, or_false] at hx
              subst hx
              rfl
            · obtain ⟨bw, p, heq⟩ := hfront _ (mem_eventsOf.mp hx)
              obtain rfl : x = fireStateEvent (ctxFull m env.chip)
                  (.writing sizes.sum bw p) := Action.emit.inj heq
              rfl
          rw [hnoerr]
          simp [errorTags, fireStateEvent]
        · rw [hfl]
          simp
    · -- a part download fails
      simp [firstFailureTag, hc, hi, hm, hsb, hfetch] at h
      subst h
      obtain ⟨j, hj, hbad⟩ : ∃ j, j < b.parts.length ∧
          (env.partFetch j).isOk = false := by
        simp only [List.all_eq_true, not_forall] at hfetch
        obtain ⟨x, hx, hbad⟩ := hfetch
        exact ⟨x, List.mem_range.mp hx, by simpa using hbad⟩
      obtain ⟨d, hd2⟩ := downloadParts_error_exists env b.parts 0 j hj
        (by simpa using hbad)
      rw [if_neg (by simp)]
      constructor
      · rw [flashEvents, flash_download_fail env eraseFirst m b d hc hi hm hsb hd2]
        simp [errorTags, eventsOf, fireStateEvent]
      · rw [flash_download_fail env eraseFirst m b d hc hi hm hsb hd2]
        simp

/-- Witness: `flash_failure_taxonomy` at a concrete manifest-fetch failure. -/
theorem flash_failure_taxonomy_witness :
    if (FlashError.failed_manifest_fetch = .failed_initializing ∧
        envManifestFail.connectedAfterInitFail = false) then
      errorTags (flashEvents envManifestFail false) = [] ∧
      Action.disconnect ∉ flash envManifestFail false
    else
      errorTags (flashEvents envManifestFail false) = [.failed_manifest_fetch] ∧
      Action.disconnect ∈ flash envManifestFail false :=
  flash_failure_taxonomy envManifestFail false .failed_manifest_fetch rfl

end EspUpdate
